import Mathlib

/-!
Verification development for the `Protocol_maniac` error-propagation engine
(`src/errorcalc.py`, class `Error`).

The Python code builds, for a formula callable, one sympy partial derivative
per declared parameter (`Error.__init__`), evaluates them at a measurement
point (`Error.result`) and renders a LaTeX derivation block
(`Error.latex_out`).  We embed the sympy expression fragment the repository
uses as an inductive type `Expr`, model sympy's automatic evaluation of
arithmetic on numbers by smart constructors, and model the numeric domain by
`ℚ` (the repository feeds Python ints and floats such as `0.4` into sympy;
we idealise these as exact rationals, so `0.4·9 + 0.5·12` is exactly `9.6`).
-/

set_option maxRecDepth 100000

/-- Expression trees for the sympy fragment the repository's formulas use:
numeric literals, symbols, `+`, `-`, `*`, `/`, `**`, `sin`, `cos`, `sqrt`,
`log` (sympy introduces `log` in the generalized power rule) and `Abs`
(introduced by `Error.result`, which takes `abs` of each derivative). -/
inductive Expr where
  | const : ℚ → Expr
  | var : String → Expr
  | add : Expr → Expr → Expr
  | sub : Expr → Expr → Expr
  | mul : Expr → Expr → Expr
  | div : Expr → Expr → Expr
  | pow : Expr → Expr → Expr
  | sin : Expr → Expr
  | cos : Expr → Expr
  | sqrt : Expr → Expr
  | log : Expr → Expr
  | eabs : Expr → Expr
deriving DecidableEq, Repr

namespace Expr

/-- Does the symbol `x` occur (free) in the expression?  Models membership in
a sympy expression's `free_symbols`. -/
def occurs (x : String) : Expr → Bool
  | const _ => false
  | var y => y == x
  | add a b => occurs x a || occurs x b
  | sub a b => occurs x a || occurs x b
  | mul a b => occurs x a || occurs x b
  | div a b => occurs x a || occurs x b
  | pow a b => occurs x a || occurs x b
  | sin u => occurs x u
  | cos u => occurs x u
  | sqrt u => occurs x u
  | log u => occurs x u
  | eabs u => occurs x u

/-- Sympy's auto-evaluating `Add` on the exact fragment: numbers fold,
`0` is an identity. -/
def sadd (a b : Expr) : Expr :=
  match a, b with
  | const p, const q => const (p + q)
  | const p, b => if p = 0 then b else add (const p) b
  | a, const q => if q = 0 then a else add a (const q)
  | a, b => add a b

/-- Sympy's auto-evaluating subtraction on the exact fragment. -/
def ssub (a b : Expr) : Expr :=
  match a, b with
  | const p, const q => const (p - q)
  | a, const q => if q = 0 then a else sub a (const q)
  | a, b => sub a b

/-- Sympy's auto-evaluating `Mul` on the exact fragment: numbers fold,
`0` annihilates, `1` is an identity. -/
def smul (a b : Expr) : Expr :=
  match a, b with
  | const p, const q => const (p * q)
  | const p, b => if p = 0 then const 0 else if p = 1 then b else mul (const p) b
  | a, const q => if q = 0 then const 0 else if q = 1 then a else mul a (const q)
  | a, b => mul a b

/-- Sympy's auto-evaluating division on the exact fragment.  A literal
division of numbers folds when the denominator is nonzero; `0/e` collapses
to `0`; division by the literal `1` disappears. -/
def sdiv (a b : Expr) : Expr :=
  match a, b with
  | const p, const q => if q = 0 then div (const p) (const q) else const (p / q)
  | const p, b => if p = 0 then const 0 else div (const p) b
  | a, const q => if q = 1 then a else div a (const q)
  | a, b => div a b

/-- Sympy's auto-evaluating `Pow` on the exact fragment: an integer power of
a number folds; exponents `0` and `1` collapse. -/
def spow (a b : Expr) : Expr :=
  match a, b with
  | const p, const q => if q.den = 1 then const (p ^ q.num) else pow (const p) (const q)
  | a, const q => if q = 0 then const 1 else if q = 1 then a else pow a (const q)
  | a, b => pow a b

/-- Sympy's auto-evaluating `Abs` on numbers. -/
def sabs (a : Expr) : Expr :=
  match a with
  | const p => const |p|
  | a => eabs a

/-- Model of `sympy` differentiation (`self.f.diff(variable)` in
`Error.__init__`, src/errorcalc.py line 21): at every node, a subtree in
which the variable does not occur differentiates to `0`, and otherwise the
standard structural rules apply, with sympy's automatic simplification of
the resulting arithmetic. -/
def diff (e : Expr) (x : String) : Expr :=
  match e with
  | const _ => const 0
  | var y => if y == x then const 1 else const 0
  | add a b =>
    if occurs x a || occurs x b then sadd (diff a x) (diff b x) else const 0
  | sub a b =>
    if occurs x a || occurs x b then ssub (diff a x) (diff b x) else const 0
  | mul a b =>
    if occurs x a || occurs x b then
      sadd (smul (diff a x) b) (smul a (diff b x))
    else const 0
  | div a b =>
    if occurs x a || occurs x b then
      sdiv (ssub (smul (diff a x) b) (smul a (diff b x))) (smul b b)
    else const 0
  | pow u v =>
    if occurs x u || occurs x v then
      if occurs x v then
        smul (spow u v) (sadd (smul (diff v x) (log u)) (sdiv (smul v (diff u x)) u))
      else
        smul (smul v (spow u (ssub v (const 1)))) (diff u x)
    else const 0
  | sin u => if occurs x u then smul (cos u) (diff u x) else const 0
  | cos u =>
    if occurs x u then smul (const (-1)) (smul (sin u) (diff u x)) else const 0
  | sqrt u =>
    if occurs x u then sdiv (diff u x) (smul (const 2) (sqrt u)) else const 0
  | log u => if occurs x u then sdiv (diff u x) u else const 0
  | eabs u =>
    if occurs x u then sdiv (smul u (diff u x)) (eabs u) else const 0

/-- The structural partial derivative exactly as the specification's §4.2
states the rules, with no simplification: sum/difference rule, product rule
`u'·v + u·v'`, quotient rule `(u'·v − u·v')/v²`, power rule (constant
exponent `v·u^(v−1)·u'`, generalized `u^v·(v'·ln u + v·u'/u)`), and the
chain rules `sin(u)' = cos(u)·u'`, `cos(u)' = −sin(u)·u'`,
`sqrt(u)' = u'/(2·sqrt(u))`, `log(u)' = u'/u`, `|u|' = u·u'/|u|`. -/
def diffSpec (e : Expr) (x : String) : Expr :=
  match e with
  | const _ => const 0
  | var y => if y == x then const 1 else const 0
  | add a b => add (diffSpec a x) (diffSpec b x)
  | sub a b => sub (diffSpec a x) (diffSpec b x)
  | mul a b => add (mul (diffSpec a x) b) (mul a (diffSpec b x))
  | div a b =>
    div (sub (mul (diffSpec a x) b) (mul a (diffSpec b x))) (mul b b)
  | pow u v =>
    if occurs x v then
      mul (pow u v) (add (mul (diffSpec v x) (log u)) (div (mul v (diffSpec u x)) u))
    else
      mul (mul v (pow u (sub v (const 1)))) (diffSpec u x)
  | sin u => mul (cos u) (diffSpec u x)
  | cos u => mul (const (-1)) (mul (sin u) (diffSpec u x))
  | sqrt u => div (diffSpec u x) (mul (const 2) (sqrt u))
  | log u => div (diffSpec u x) u
  | eabs u => div (mul u (diffSpec u x)) (eabs u)

end Expr

/-- An interpretation of the transcendental operations over `ℚ`.  The exact
rational semantics leaves `sin`, `cos`, `sqrt`, `log` and non-integer powers
abstract: a theorem quantified over every interpretation is a statement about
the expression's shape, independent of how those functions are realised. -/
structure Interp where
  sinI : ℚ → ℚ
  cosI : ℚ → ℚ
  sqrtI : ℚ → ℚ
  logI : ℚ → ℚ
  rpowI : ℚ → ℚ → ℚ

namespace Expr

/-- Total evaluation of an expression over `ℚ` under an interpretation of
the transcendentals and a total environment.  Division uses the `ℚ`
convention `q/0 = 0`; an integer exponent uses `zpow` and any other exponent
falls to the interpretation's `rpowI`. -/
def evalT (I : Interp) : Expr → (String → ℚ) → ℚ
  | const q, _ => q
  | var x, ρ => ρ x
  | add a b, ρ => evalT I a ρ + evalT I b ρ
  | sub a b, ρ => evalT I a ρ - evalT I b ρ
  | mul a b, ρ => evalT I a ρ * evalT I b ρ
  | div a b, ρ => evalT I a ρ / evalT I b ρ
  | pow a b, ρ =>
    if (evalT I b ρ).den = 1 then evalT I a ρ ^ (evalT I b ρ).num
    else I.rpowI (evalT I a ρ) (evalT I b ρ)
  | sin u, ρ => I.sinI (evalT I u ρ)
  | cos u, ρ => I.cosI (evalT I u ρ)
  | sqrt u, ρ => I.sqrtI (evalT I u ρ)
  | log u, ρ => I.logI (evalT I u ρ)
  | eabs u, ρ => |evalT I u ρ|

@[simp] theorem evalT_const (I : Interp) (q : ℚ) (ρ : String → ℚ) :
    evalT I (const q) ρ = q := rfl

@[simp] theorem evalT_var (I : Interp) (x : String) (ρ : String → ℚ) :
    evalT I (var x) ρ = ρ x := rfl

@[simp] theorem evalT_add (I : Interp) (a b : Expr) (ρ : String → ℚ) :
    evalT I (add a b) ρ = evalT I a ρ + evalT I b ρ := rfl

@[simp] theorem evalT_sub (I : Interp) (a b : Expr) (ρ : String → ℚ) :
    evalT I (sub a b) ρ = evalT I a ρ - evalT I b ρ := rfl

@[simp] theorem evalT_mul (I : Interp) (a b : Expr) (ρ : String → ℚ) :
    evalT I (mul a b) ρ = evalT I a ρ * evalT I b ρ := rfl

@[simp] theorem evalT_div (I : Interp) (a b : Expr) (ρ : String → ℚ) :
    evalT I (div a b) ρ = evalT I a ρ / evalT I b ρ := rfl

theorem evalT_pow (I : Interp) (a b : Expr) (ρ : String → ℚ) :
    evalT I (pow a b) ρ =
      if (evalT I b ρ).den = 1 then evalT I a ρ ^ (evalT I b ρ).num
      else I.rpowI (evalT I a ρ) (evalT I b ρ) := rfl

@[simp] theorem evalT_sin (I : Interp) (u : Expr) (ρ : String → ℚ) :
    evalT I (sin u) ρ = I.sinI (evalT I u ρ) := rfl

@[simp] theorem evalT_cos (I : Interp) (u : Expr) (ρ : String → ℚ) :
    evalT I (cos u) ρ = I.cosI (evalT I u ρ) := rfl

@[simp] theorem evalT_sqrt (I : Interp) (u : Expr) (ρ : String → ℚ) :
    evalT I (sqrt u) ρ = I.sqrtI (evalT I u ρ) := rfl

@[simp] theorem evalT_log (I : Interp) (u : Expr) (ρ : String → ℚ) :
    evalT I (log u) ρ = I.logI (evalT I u ρ) := rfl

@[simp] theorem evalT_eabs (I : Interp) (u : Expr) (ρ : String → ℚ) :
    evalT I (eabs u) ρ = |evalT I u ρ| := rfl

/-- Sympy's automatic evaluation of `Add` preserves the semantics. -/
theorem evalT_sadd (I : Interp) (a b : Expr) (ρ : String → ℚ) :
    evalT I (sadd a b) ρ = evalT I a ρ + evalT I b ρ := by
  cases a <;> cases b <;> simp only [sadd] <;> (repeat' split) <;>
    simp_all

/-- Sympy's automatic evaluation of subtraction preserves the semantics. -/
theorem evalT_ssub (I : Interp) (a b : Expr) (ρ : String → ℚ) :
    evalT I (ssub a b) ρ = evalT I a ρ - evalT I b ρ := by
  cases a <;> cases b <;> simp only [ssub] <;> (repeat' split) <;>
    simp_all

/-- Sympy's automatic evaluation of `Mul` preserves the semantics. -/
theorem evalT_smul (I : Interp) (a b : Expr) (ρ : String → ℚ) :
    evalT I (smul a b) ρ = evalT I a ρ * evalT I b ρ := by
  cases a <;> cases b <;> simp only [smul] <;> (repeat' split) <;>
    simp_all

/-- Sympy's automatic evaluation of division preserves the semantics (with
the `ℚ` convention `q/0 = 0`). -/
theorem evalT_sdiv (I : Interp) (a b : Expr) (ρ : String → ℚ) :
    evalT I (sdiv a b) ρ = evalT I a ρ / evalT I b ρ := by
  cases a <;> cases b <;> simp only [sdiv] <;> (repeat' split) <;>
    simp_all

/-- Sympy's automatic evaluation of `Pow` preserves the semantics. -/
theorem evalT_spow (I : Interp) (a b : Expr) (ρ : String → ℚ) :
    evalT I (spow a b) ρ = evalT I (pow a b) ρ := by
  cases a <;> cases b <;> simp only [spow] <;> (repeat' split) <;>
    simp_all [evalT_pow]

/-- Sympy's automatic evaluation of `Abs` preserves the semantics. -/
theorem evalT_sabs (I : Interp) (a : Expr) (ρ : String → ℚ) :
    evalT I (sabs a) ρ = |evalT I a ρ| := by
  cases a <;> simp [sabs]

end Expr

namespace Expr

/-- The specification's structural derivative with respect to a variable
that does not occur in the expression evaluates to `0` everywhere. -/
theorem evalT_diffSpec_eq_zero (I : Interp) (x : String) (ρ : String → ℚ) :
    ∀ e : Expr, occurs x e = false → evalT I (diffSpec e x) ρ = 0 := by
  intro e
  induction e with
  | const q => intro h; simp [diffSpec]
  | var y => intro h; simp [occurs] at h; simp [diffSpec, h]
  | add a b iha ihb =>
    intro h; simp [occurs] at h; simp [diffSpec, iha h.1, ihb h.2]
  | sub a b iha ihb =>
    intro h; simp [occurs] at h; simp [diffSpec, iha h.1, ihb h.2]
  | mul a b iha ihb =>
    intro h; simp [occurs] at h; simp [diffSpec, iha h.1, ihb h.2]
  | div a b iha ihb =>
    intro h; simp [occurs] at h; simp [diffSpec, iha h.1, ihb h.2]
  | pow u v ihu ihv =>
    intro h; simp [occurs] at h; simp [diffSpec, h.2, ihu h.1]
  | sin u ihu => intro h; simp [occurs] at h; simp [diffSpec, ihu h]
  | cos u ihu => intro h; simp [occurs] at h; simp [diffSpec, ihu h]
  | sqrt u ihu => intro h; simp [occurs] at h; simp [diffSpec, ihu h]
  | log u ihu => intro h; simp [occurs] at h; simp [diffSpec, ihu h]
  | eabs u ihu => intro h; simp [occurs] at h; simp [diffSpec, ihu h]

/-- The sympy-modelled derivative and the specification's structural
derivative agree under every interpretation and environment: sympy's
free-symbol short-circuit and its automatic simplification do not change
the value of the computed partial derivative. -/
theorem evalT_diff_eq_diffSpec (I : Interp) (x : String) (ρ : String → ℚ) :
    ∀ e : Expr, evalT I (diff e x) ρ = evalT I (diffSpec e x) ρ := by
  intro e
  induction e with
  | const q => rfl
  | var y => rfl
  | add a b iha ihb =>
    cases h : (occurs x a || occurs x b) with
    | false =>
      have hz := evalT_diffSpec_eq_zero I x ρ (add a b) (by simp [occurs] at h ⊢; exact h)
      simp [diff, h, hz]
    | true => simp [diff, h, evalT_sadd, diffSpec, iha, ihb]
  | sub a b iha ihb =>
    cases h : (occurs x a || occurs x b) with
    | false =>
      have hz := evalT_diffSpec_eq_zero I x ρ (sub a b) (by simp [occurs] at h ⊢; exact h)
      simp [diff, h, hz]
    | true => simp [diff, h, evalT_ssub, diffSpec, iha, ihb]
  | mul a b iha ihb =>
    cases h : (occurs x a || occurs x b) with
    | false =>
      have hz := evalT_diffSpec_eq_zero I x ρ (mul a b) (by simp [occurs] at h ⊢; exact h)
      simp [diff, h, hz]
    | true => simp [diff, h, evalT_sadd, evalT_smul, diffSpec, iha, ihb]
  | div a b iha ihb =>
    cases h : (occurs x a || occurs x b) with
    | false =>
      have hz := evalT_diffSpec_eq_zero I x ρ (div a b) (by simp [occurs] at h ⊢; exact h)
      simp [diff, h, hz]
    | true =>
      simp [diff, h, evalT_sdiv, evalT_ssub, evalT_smul, diffSpec, iha, ihb]
  | pow u v ihu ihv =>
    cases h : (occurs x u || occurs x v) with
    | false =>
      have hz := evalT_diffSpec_eq_zero I x ρ (pow u v) (by simp [occurs] at h ⊢; exact h)
      simp [diff, h, hz]
    | true =>
      cases hv : occurs x v with
      | true =>
        simp [diff, h, hv, diffSpec, evalT_smul, evalT_sadd, evalT_sdiv,
          evalT_spow, ihu, ihv]
      | false =>
        have hu : occurs x u = true := by simp_all
        simp [diff, h, hv, hu, diffSpec, evalT_smul, evalT_spow, evalT_ssub,
          evalT_pow, ihu]
  | sin u ihu =>
    cases h : occurs x u with
    | false =>
      have hz := evalT_diffSpec_eq_zero I x ρ (sin u) (by simpa [occurs] using h)
      simp [diff, h, hz]
    | true => simp [diff, h, evalT_smul, diffSpec, ihu]
  | cos u ihu =>
    cases h : occurs x u with
    | false =>
      have hz := evalT_diffSpec_eq_zero I x ρ (cos u) (by simpa [occurs] using h)
      simp [diff, h, hz]
    | true => simp [diff, h, evalT_smul, diffSpec, ihu]
  | sqrt u ihu =>
    cases h : occurs x u with
    | false =>
      have hz := evalT_diffSpec_eq_zero I x ρ (sqrt u) (by simpa [occurs] using h)
      simp [diff, h, hz]
    | true => simp [diff, h, evalT_sdiv, evalT_smul, diffSpec, ihu]
  | log u ihu =>
    cases h : occurs x u with
    | false =>
      have hz := evalT_diffSpec_eq_zero I x ρ (log u) (by simpa [occurs] using h)
      simp [diff, h, hz]
    | true => simp [diff, h, evalT_sdiv, diffSpec, ihu]
  | eabs u ihu =>
    cases h : occurs x u with
    | false =>
      have hz := evalT_diffSpec_eq_zero I x ρ (eabs u) (by simpa [occurs] using h)
      simp [diff, h, hz]
    | true => simp [diff, h, evalT_sdiv, evalT_smul, diffSpec, ihu]

/-- A symbol occurring in `sadd a b` occurs in `a` or in `b`. -/
theorem occurs_sadd {y : String} {a b : Expr} :
    occurs y (sadd a b) = true → occurs y a = true ∨ occurs y b = true := by
  cases a <;> cases b <;> simp only [sadd] <;> (repeat' split) <;>
    simp_all [occurs]

/-- A symbol occurring in `ssub a b` occurs in `a` or in `b`. -/
theorem occurs_ssub {y : String} {a b : Expr} :
    occurs y (ssub a b) = true → occurs y a = true ∨ occurs y b = true := by
  cases a <;> cases b <;> simp only [ssub] <;> (repeat' split) <;>
    simp_all [occurs]

/-- A symbol occurring in `smul a b` occurs in `a` or in `b`. -/
theorem occurs_smul {y : String} {a b : Expr} :
    occurs y (smul a b) = true → occurs y a = true ∨ occurs y b = true := by
  cases a <;> cases b <;> simp only [smul] <;> (repeat' split) <;>
    simp_all [occurs]

/-- A symbol occurring in `sdiv a b` occurs in `a` or in `b`. -/
theorem occurs_sdiv {y : String} {a b : Expr} :
    occurs y (sdiv a b) = true → occurs y a = true ∨ occurs y b = true := by
  cases a <;> cases b <;> simp only [sdiv] <;> (repeat' split) <;>
    simp_all [occurs]

/-- A symbol occurring in `spow a b` occurs in `a` or in `b`. -/
theorem occurs_spow {y : String} {a b : Expr} :
    occurs y (spow a b) = true → occurs y a = true ∨ occurs y b = true := by
  cases a <;> cases b <;> simp only [spow] <;> (repeat' split) <;>
    simp_all [occurs]

/-- The computed derivative introduces no new symbols: every symbol free in
`diff e x` is free in `e`. -/
theorem occurs_diff {y x : String} :
    ∀ e : Expr, occurs y (diff e x) = true → occurs y e = true := by
  intro e
  induction e with
  | const q => simp [diff, occurs]
  | var z => simp only [diff]; split <;> simp [occurs]
  | add a b iha ihb =>
    simp only [diff]; split
    · intro h
      rcases occurs_sadd h with h' | h'
      · simp [occurs, iha h']
      · simp [occurs, ihb h']
    · simp [occurs]
  | sub a b iha ihb =>
    simp only [diff]; split
    · intro h
      rcases occurs_ssub h with h' | h'
      · simp [occurs, iha h']
      · simp [occurs, ihb h']
    · simp [occurs]
  | mul a b iha ihb =>
    simp only [diff]; split
    · intro h
      rcases occurs_sadd h with h' | h'
      · rcases occurs_smul h' with h'' | h''
        · simp [occurs, iha h'']
        · simp [occurs, h'']
      · rcases occurs_smul h' with h'' | h''
        · simp [occurs, h'']
        · simp [occurs, ihb h'']
    · simp [occurs]
  | div a b iha ihb =>
    simp only [diff]; split
    · intro h
      rcases occurs_sdiv h with h' | h'
      · rcases occurs_ssub h' with h'' | h''
        · rcases occurs_smul h'' with h3 | h3
          · simp [occurs, iha h3]
          · simp [occurs, h3]
        · rcases occurs_smul h'' with h3 | h3
          · simp [occurs, h3]
          · simp [occurs, ihb h3]
      · rcases occurs_smul h' with h'' | h''
        · simp [occurs, h'']
        · simp [occurs, h'']
    · simp [occurs]
  | pow u v ihu ihv =>
    simp only [diff]; split
    · split
      · intro h
        rcases occurs_smul h with h' | h'
        · rcases occurs_spow h' with h'' | h''
          · simp [occurs, h'']
          · simp [occurs, h'']
        · rcases occurs_sadd h' with h'' | h''
          · rcases occurs_smul h'' with h3 | h3
            · simp [occurs, ihv h3]
            · simp only [occurs] at h3; simp [occurs, h3]
          · rcases occurs_sdiv h'' with h3 | h3
            · rcases occurs_smul h3 with h4 | h4
              · simp [occurs, h4]
              · simp [occurs, ihu h4]
            · simp [occurs, h3]
      · intro h
        rcases occurs_smul h with h' | h'
        · rcases occurs_smul h' with h'' | h''
          · simp [occurs, h'']
          · rcases occurs_spow h'' with h3 | h3
            · simp [occurs, h3]
            · rcases occurs_ssub h3 with h4 | h4
              · simp [occurs, h4]
              · simp [occurs] at h4
        · simp [occurs, ihu h']
    · simp [occurs]
  | sin u ihu =>
    simp only [diff]; split
    · intro h
      rcases occurs_smul h with h' | h'
      · simp only [occurs] at h'; simp [occurs, h']
      · simp [occurs, ihu h']
    · simp [occurs]
  | cos u ihu =>
    simp only [diff]; split
    · intro h
      rcases occurs_smul h with h' | h'
      · simp [occurs] at h'
      · rcases occurs_smul h' with h'' | h''
        · simp only [occurs] at h''; simp [occurs, h'']
        · simp [occurs, ihu h'']
    · simp [occurs]
  | sqrt u ihu =>
    simp only [diff]; split
    · intro h
      rcases occurs_sdiv h with h' | h'
      · simp [occurs, ihu h']
      · rcases occurs_smul h' with h'' | h''
        · simp [occurs] at h''
        · simp only [occurs] at h''; simp [occurs, h'']
    · simp [occurs]
  | log u ihu =>
    simp only [diff]; split
    · intro h
      rcases occurs_sdiv h with h' | h'
      · simp [occurs, ihu h']
      · simp [occurs, h']
    · simp [occurs]
  | eabs u ihu =>
    simp only [diff]; split
    · intro h
      rcases occurs_sdiv h with h' | h'
      · rcases occurs_smul h' with h'' | h''
        · simp [occurs, h'']
        · simp [occurs, ihu h'']
      · simp only [occurs] at h'; simp [occurs, h']
    · simp [occurs]

/-- Model of sympy `.subs` as used by `Error.result` and `Error.latex_out`
(src/errorcalc.py lines 66 and 79): plain values are substituted and sympy
re-evaluates each node bottom-up, so arithmetic on numbers folds. -/
def subsEval (e : Expr) (σ : String → Option ℚ) : Expr :=
  match e with
  | const q => const q
  | var x =>
    match σ x with
    | some q => const q
    | none => var x
  | add a b => sadd (subsEval a σ) (subsEval b σ)
  | sub a b => ssub (subsEval a σ) (subsEval b σ)
  | mul a b => smul (subsEval a σ) (subsEval b σ)
  | div a b => sdiv (subsEval a σ) (subsEval b σ)
  | pow a b => spow (subsEval a σ) (subsEval b σ)
  | sin u => sin (subsEval u σ)
  | cos u => cos (subsEval u σ)
  | sqrt u => sqrt (subsEval u σ)
  | log u => log (subsEval u σ)
  | eabs u => sabs (subsEval u σ)

/-- Model of sympy `.subs` with `UnevaluatedExpr` values as used by
`Error.substitute` (src/errorcalc.py lines 30-32): values are substituted
literally and nothing is re-evaluated. -/
def subsLit (e : Expr) (σ : String → Option ℚ) : Expr :=
  match e with
  | const q => const q
  | var x =>
    match σ x with
    | some q => const q
    | none => var x
  | add a b => add (subsLit a σ) (subsLit b σ)
  | sub a b => sub (subsLit a σ) (subsLit b σ)
  | mul a b => mul (subsLit a σ) (subsLit b σ)
  | div a b => div (subsLit a σ) (subsLit b σ)
  | pow a b => pow (subsLit a σ) (subsLit b σ)
  | sin u => sin (subsLit u σ)
  | cos u => cos (subsLit u σ)
  | sqrt u => sqrt (subsLit u σ)
  | log u => log (subsLit u σ)
  | eabs u => eabs (subsLit u σ)

/-- Substitution only reads the mapping at the expression's free symbols. -/
theorem subsEval_congr {σ₁ σ₂ : String → Option ℚ} :
    ∀ e : Expr, (∀ y, occurs y e = true → σ₁ y = σ₂ y) →
      subsEval e σ₁ = subsEval e σ₂ := by
  intro e
  induction e with
  | const q => intro _; rfl
  | var x =>
    intro h
    have hx : σ₁ x = σ₂ x := h x (by simp [occurs])
    simp [subsEval, hx]
  | add a b iha ihb =>
    intro h
    have ha := iha fun y hy => h y (by simp [occurs, hy])
    have hb := ihb fun y hy => h y (by simp [occurs, hy])
    simp [subsEval, ha, hb]
  | sub a b iha ihb =>
    intro h
    have ha := iha fun y hy => h y (by simp [occurs, hy])
    have hb := ihb fun y hy => h y (by simp [occurs, hy])
    simp [subsEval, ha, hb]
  | mul a b iha ihb =>
    intro h
    have ha := iha fun y hy => h y (by simp [occurs, hy])
    have hb := ihb fun y hy => h y (by simp [occurs, hy])
    simp [subsEval, ha, hb]
  | div a b iha ihb =>
    intro h
    have ha := iha fun y hy => h y (by simp [occurs, hy])
    have hb := ihb fun y hy => h y (by simp [occurs, hy])
    simp [subsEval, ha, hb]
  | pow a b iha ihb =>
    intro h
    have ha := iha fun y hy => h y (by simp [occurs, hy])
    have hb := ihb fun y hy => h y (by simp [occurs, hy])
    simp [subsEval, ha, hb]
  | sin u ihu =>
    intro h
    have hu := ihu fun y hy => h y (by simp [occurs, hy])
    simp [subsEval, hu]
  | cos u ihu =>
    intro h
    have hu := ihu fun y hy => h y (by simp [occurs, hy])
    simp [subsEval, hu]
  | sqrt u ihu =>
    intro h
    have hu := ihu fun y hy => h y (by simp [occurs, hy])
    simp [subsEval, hu]
  | log u ihu =>
    intro h
    have hu := ihu fun y hy => h y (by simp [occurs, hy])
    simp [subsEval, hu]
  | eabs u ihu =>
    intro h
    have hu := ihu fun y hy => h y (by simp [occurs, hy])
    simp [subsEval, hu]

end Expr

/-- The failure values the Python methods can surface: `KeyError(key)` from
a mapping subscript and `TypeError` from converting a non-numeric sympy
expression with `float`. -/
inductive PyErr where
  | keyError : String → PyErr
  | typeError : PyErr
deriving DecidableEq, Repr

/-- Python mapping subscript `d[k]` over an insertion-ordered association
list with unique keys (the model of a Python `dict`): the value at the first
matching key, if any. -/
def dget {α : Type} : List (String × α) → String → Option α
  | [], _ => none
  | p :: ps, k => if p.1 = k then some p.2 else dget ps k

@[simp] theorem dget_nil {α : Type} (k : String) : dget ([] : List (String × α)) k = none := rfl

@[simp] theorem dget_cons {α : Type} (p : String × α) (ps : List (String × α)) (k : String) :
    dget (p :: ps) k = if p.1 = k then some p.2 else dget ps k := rfl

/-- The part of `inspect.getfullargspec`'s report the repository can observe:
positional argument names, the `*args`/`**kwargs` names, the number of
defaulted positional parameters and the keyword-only names. -/
structure FullArgSpec where
  args : List String
  varargs : Option String
  varkw : Option String
  defaults : Nat
  kwonlyargs : List String
deriving DecidableEq, Repr

/-- A Python formula callable, as far as `Error.__init__` can observe it: its
signature, whether some keyword-only parameter lacks a default (in which case
calling it with positional arguments only raises `TypeError`), and the sympy
expression produced by applying it to one symbol per positional parameter. -/
structure PyFunc where
  args : List String
  varargs : Option String
  varkw : Option String
  defaults : Nat
  kwonlyargs : List String
  kwonlyNoDefault : Bool
  body : Expr
deriving DecidableEq, Repr

/-- Model of `inspect.getfullargspec` (src/errorcalc.py line 8): a pure
inspection that reports the signature and never invokes the callable. -/
def getfullargspec (f : PyFunc) : FullArgSpec :=
  { args := f.args
    varargs := f.varargs
    varkw := f.varkw
    defaults := f.defaults
    kwonlyargs := f.kwonlyargs }

/-- Python `dict` assignment `d[k] = v`: replace the value in place if the
key is present, append a new entry otherwise (insertion order preserved). -/
def dinsert : List (String × Expr) → String → Expr → List (String × Expr)
  | [], k, v => [(k, v)]
  | p :: ps, k, v => if p.1 = k then (k, v) :: ps else p :: dinsert ps k v

/-- Looking a key up after a `dict` assignment. -/
theorem dget_dinsert (d : List (String × Expr)) (k k' : String) (v : Expr) :
    dget (dinsert d k v) k' = if k = k' then some v else dget d k' := by
  induction d with
  | nil => simp [dinsert]
  | cons p ps ih =>
    by_cases hp : p.1 = k
    · by_cases h : k = k' <;> simp [dinsert, hp, h]
    · by_cases h : p.1 = k'
      · have hk : ¬k = k' := fun hkk => hp (by rw [hkk, h])
        have hk2 : ¬k' = k := fun hh => hk hh.symm
        simp [dinsert, hp, h, hk, hk2]
      · simp [dinsert, hp, h, ih]

/-- A `dict` assignment of an absent key appends the new entry. -/
theorem dinsert_absent (d : List (String × Expr)) (k : String) (v : Expr)
    (h : dget d k = none) : dinsert d k v = d ++ [(k, v)] := by
  induction d with
  | nil => rfl
  | cons p ps ih =>
    by_cases hp : p.1 = k
    · simp [hp] at h
    · simp only [dget_cons, hp, if_false] at h
      simp [dinsert, hp, ih h]

/-- The derivative dictionary built by `Error.__init__` (src/errorcalc.py
lines 19-22): one sympy derivative of the formula body per declared
variable, keyed by the variable's name, in declaration order. -/
def mkDerivs (args : List String) (body : Expr) : List (String × Expr) :=
  args.foldl (fun d x => dinsert d x (Expr.diff body x)) []

/-- What the derivative dictionary holds at each key, starting from any
dictionary state. -/
theorem dget_foldl_dinsert (body : Expr) :
    ∀ (args : List String) (d : List (String × Expr)) (k : String),
      dget (args.foldl (fun acc x => dinsert acc x (Expr.diff body x)) d) k =
        if k ∈ args then some (Expr.diff body k) else dget d k := by
  intro args
  induction args with
  | nil => intro d k; simp
  | cons a as ih =>
    intro d k
    simp only [List.foldl_cons]
    rw [ih]
    by_cases hk : k ∈ as
    · simp [hk]
    · by_cases hka : a = k
      · simp [hk, hka, dget_dinsert]
      · have : ¬k = a := fun hh => hka hh.symm
        simp [hk, hka, this, dget_dinsert]

/-- What the derivative dictionary holds at each key. -/
theorem mkDerivs_dget (args : List String) (body : Expr) (k : String) :
    dget (mkDerivs args body) k =
      if k ∈ args then some (Expr.diff body k) else none := by
  rw [mkDerivs, dget_foldl_dinsert]
  simp

/-- With distinct argument names, the derivative dictionary's keys are
exactly the argument names, in declaration order. -/
theorem mkDerivs_keys_aux (body : Expr) :
    ∀ (args : List String) (d : List (String × Expr)), args.Nodup →
      (∀ x ∈ args, dget d x = none) →
      (args.foldl (fun acc x => dinsert acc x (Expr.diff body x)) d).map Prod.fst =
        d.map Prod.fst ++ args := by
  intro args
  induction args with
  | nil => intro d _ _; simp
  | cons a as ih =>
    intro d hnd habs
    simp only [List.foldl_cons]
    rw [dinsert_absent d a _ (habs a (by simp))]
    rw [ih (d ++ [(a, Expr.diff body a)]) hnd.of_cons]
    · simp
    · intro x hx
      rw [show d ++ [(a, Expr.diff body a)] =
            dinsert d a (Expr.diff body a) from
          (dinsert_absent d a _ (habs a (by simp))).symm]
      rw [dget_dinsert]
      have hxa : ¬a = x := by
        intro hxa
        exact (List.nodup_cons.mp hnd).1 (hxa ▸ hx)
      simp [hxa, habs x (by simp [hx])]

/-- With distinct argument names the derivative dictionary's key list is the
argument list itself. -/
theorem mkDerivs_keys (args : List String) (body : Expr) (h : args.Nodup) :
    (mkDerivs args body).map Prod.fst = args := by
  have := mkDerivs_keys_aux body args [] h (by simp)
  simpa [mkDerivs] using this

/-- The engine state built by `Error.__init__` (src/errorcalc.py lines
6-22): the declared variable names (the source's `self.variables`; Lean
reserves the word, so the field is `vars`), the derived `delta_`-prefixed
uncertainty names, the formula body and the derivative dictionary. -/
structure Error where
  vars : List String
  error_symbols : List String
  f : Expr
  derivatives : List (String × Expr)
deriving DecidableEq, Repr

namespace Error

/-- Model of `Error.__init__` (src/errorcalc.py lines 6-22):
`inspect.getfullargspec(func).args` yields the positional parameter names
(it does not reject variadic, keyword-only or defaulted parameters); the
formula is invoked once with one symbol per positional name, which raises
`TypeError` exactly when some keyword-only parameter has no default; the
derivatives are computed once and stored keyed by variable name. -/
def init (func : PyFunc) : Except PyErr Error :=
  let arg_names := (getfullargspec func).args
  if func.kwonlyNoDefault then .error .typeError
  else
    .ok
      { vars := arg_names
        error_symbols := arg_names.map (fun v => "delta_" ++ v)
        f := func.body
        derivatives := mkDerivs arg_names func.body }

end Error

/-- Split a character list at every occurrence of `c`, accumulator style:
the model of Python `str.split` for a single-character separator. -/
def splitOnCh (c : Char) : List Char → List Char → List (List Char)
  | [], acc => [acc.reverse]
  | d :: ds, acc =>
    if d = c then acc.reverse :: splitOnCh c ds [] else splitOnCh c ds (d :: acc)

/-- The expression `delta_name.split("_")[1]` from `Error.result` and
`Error.latex_out` (src/errorcalc.py lines 68 and 79): the SECOND underscore-
separated field of the uncertainty name.  For a variable name that itself
contains an underscore (for example `x_1`, whose uncertainty name is
`delta_x_1`) this does NOT recover the variable name. -/
def pyDeltaKey (s : String) : String :=
  String.mk ((splitOnCh '_' s.data []).getD 1 [])

/-- Decimal rendering of `q` with exactly `k` digits after the point
(digits taken from the numerator of `q·10^k`). -/
def decRender (q : ℚ) (k : Nat) : String :=
  let m : Int := (q * (10 : ℚ) ^ k).num
  let ds : List Char := (toString m.natAbs).data
  let ds : List Char := List.replicate (k + 1 - ds.length) '0' ++ ds
  let ip : List Char := ds.take (ds.length - k)
  let fp : List Char := ds.drop (ds.length - k)
  (if m < 0 then "-" else "") ++ String.mk ip ++
    (if k = 0 then "" else "." ++ String.mk fp)

/-- The smallest number of decimal digits that represents `q` exactly, if
one of at most 17 does (17 is the precision cap of Python float reprs). -/
def decExp (q : ℚ) : Option Nat :=
  (List.range 18).find? (fun k => (q * (10 : ℚ) ^ k).den == 1)

/-- Python's shortest decimal representation of a non-integral float value,
idealised to exact decimal rationals (for a value with no finite decimal
form, which the modelled programs never produce, an arbitrary deterministic
17-digit rendering is used). -/
def floatReprD (q : ℚ) : String :=
  match decExp q with
  | some k => decRender q k
  | none => decRender q 17

/-- Python `f"{v}"` for a measurement number: integral values are modelled
as Python ints and render without a decimal point, all others as floats with
their shortest decimal representation. -/
def pyNumRepr (q : ℚ) : String :=
  if q.den = 1 then toString q.num else floatReprD q

/-- Python `f"{float(v)}"`: like `pyNumRepr` but an integral value renders
with a trailing `.0`. -/
def pyFloatRepr (q : ℚ) : String :=
  if q.den = 1 then toString q.num ++ ".0" else floatReprD q

/-- Rendering with a fixed decimal precision of `p` digits after the point
(the specification's wording for the third output line; Python's `.6f`
format for `p = 6`). -/
def fixedRepr (p : Nat) (q : ℚ) : String :=
  decRender q p

/-- One replacement pass of Python `str.replace`: scan left to right and
replace every non-overlapping occurrence of the (nonempty) pattern.  The
fuel argument is the length of the scanned list. -/
def replAux : Nat → List Char → List Char → List Char → List Char
  | 0, s, _, _ => s
  | Nat.succ fuel, s, p, r =>
    match s with
    | [] => []
    | c :: cs =>
      if p.isPrefixOf s then r ++ replAux fuel (s.drop p.length) p r
      else c :: replAux fuel cs p r

/-- Python `s.replace(pat, rep)` (all occurrences, left to right,
non-overlapping; the patterns the repository uses are never empty). -/
def pyReplace (s pat rep : String) : String :=
  if pat.data = [] then s
  else String.mk (replAux s.data.length s.data pat.data rep.data)

/-- Python `sep.join(parts)`. -/
def joinSep (sep : String) : List String → String
  | [] => ""
  | [s] => s
  | s :: rest => s ++ sep ++ joinSep sep rest

/-- Split a string into its lines (separator `\n`). -/
def linesOf (s : String) : List String :=
  (splitOnCh '\n' s.data []).map String.mk

namespace Expr

/-- Deterministic model of `sympy.latex` on the embedded fragment.  The
exact token layout of sympy's printer is not load-bearing for any claim;
what matters is that rendering is a pure function of the expression. -/
def latexE : Expr → String
  | const q => pyNumRepr q
  | var x => x
  | add a b => latexE a ++ " + " ++ latexE b
  | sub a b => latexE a ++ " - " ++ latexE b
  | mul a b => latexE a ++ " \\cdot " ++ latexE b
  | div a b => "\\frac\x7b" ++ latexE a ++ "\x7d\x7b" ++ latexE b ++ "\x7d"
  | pow a b => latexE a ++ "^\x7b" ++ latexE b ++ "\x7d"
  | sin u => "\\sin\\left(" ++ latexE u ++ " \\right)"
  | cos u => "\\cos\\left(" ++ latexE u ++ " \\right)"
  | sqrt u => "\\sqrt\x7b" ++ latexE u ++ "\x7d"
  | log u => "\\log\\left(" ++ latexE u ++ " \\right)"
  | eabs u => "\\left|\x7b" ++ latexE u ++ "\x7d\\right|"

end Expr

/-- A measurement mapping: Python `dict` from names to `(value, unit)`
pairs, in insertion order.  Every declared variable `x` is expected to have
an entry at `x` and one at `delta_x`. -/
abbrev Values := List (String × ℚ × String)

/-- The numeric substitution dictionary `{k: v[0] for k, v in values.items()}`
built by `Error.result` and `Error.latex_out` (src/errorcalc.py lines 66
and 79): every key of the mapping is substituted by its value. -/
def numEnv (vals : Values) : String → Option ℚ :=
  fun y => (dget vals y).map Prod.fst

/-- Left-to-right effectful map over `Except`: the model of a Python list
comprehension, in which the first raised exception propagates. -/
def mapME {ε α β : Type} (f : α → Except ε β) : List α → Except ε (List β)
  | [] => .ok []
  | a :: as => do
    let b ← f a
    let bs ← mapME f as
    pure (b :: bs)

@[simp] theorem mapME_nil {ε α β : Type} (f : α → Except ε β) :
    mapME f [] = .ok [] := rfl

theorem mapME_cons {ε α β : Type} (f : α → Except ε β) (a : α) (as : List α) :
    mapME f (a :: as) =
      (f a >>= fun b => mapME f as >>= fun bs => pure (b :: bs)) := rfl

/-- `mapME` only depends on the function's values on the list's members. -/
theorem mapME_congr {α β ε : Type} (f g : α → Except ε β) :
    ∀ l : List α, (∀ a ∈ l, f a = g a) → mapME f l = mapME g l := by
  intro l
  induction l with
  | nil => intro _; rfl
  | cons a as ih =>
    intro h
    rw [mapME_cons, mapME_cons, h a (by simp), ih fun b hb => h b (by simp [hb])]

namespace Error

/-- One term of the aggregation loop in `Error.result`/`Error.latex_out`
(src/errorcalc.py lines 64-69 and 77-81):
`values[delta_name][0] * abs(self.derivatives[delta_name.split("_")[1]].subs(...))`.
The subscript of `values` raises `KeyError(delta_name)` when the uncertainty
entry is absent; the subscript of `self.derivatives` raises a `KeyError`
naming the split-reconstructed key when that key is not a declared variable. -/
def term1 (inst : Error) (vals : Values) (delta_name : String) : Except PyErr Expr :=
  match dget vals delta_name with
  | none => .error (.keyError delta_name)
  | some dv =>
    match dget inst.derivatives (pyDeltaKey delta_name) with
    | none => .error (.keyError (pyDeltaKey delta_name))
    | some der =>
      .ok (Expr.smul (Expr.const dv.1) (Expr.sabs (Expr.subsEval der (numEnv vals))))

/-- The aggregation `sum([...])` over `self.error_symbols` shared verbatim
by `Error.result` (src/errorcalc.py lines 76-83) and `Error.latex_out`
(lines 64-70): Python `sum` starts from `0` and adds the terms in
declaration order, with sympy's auto-evaluating addition. -/
def sumExpr (inst : Error) (vals : Values) : Except PyErr Expr := do
  let ts ← mapME (term1 inst vals) inst.error_symbols
  pure (ts.foldl Expr.sadd (Expr.const 0))

/-- Model of `Error.result` (src/errorcalc.py lines 75-83).  The sympy
value it returns is an expression: a number when every substitution closed
the derivative, a symbolic expression otherwise. -/
def result (inst : Error) (vals : Values) : Except PyErr Expr :=
  sumExpr inst vals

/-- One term of `Error.substitute`'s loop (src/errorcalc.py lines 24-37):
the derivative is fetched by variable name, substituted with
`UnevaluatedExpr` values (no re-evaluation), rendered, and prefixed by
`values['delta_' + variable_name][0]` — whose subscript raises `KeyError`
when the uncertainty entry is absent. -/
def subTerm (inst : Error) (vals : Values) (name : String) : Except PyErr String :=
  match dget inst.derivatives name with
  | none => .error (.keyError name)
  | some der =>
    let dsub := Expr.subsLit der (numEnv vals)
    match dget vals ("delta_" ++ name) with
    | none => .error (.keyError ("delta_" ++ name))
    | some dv =>
      .ok (pyNumRepr dv.1 ++ " \\cdot \\left|" ++ Expr.latexE dsub ++ "\\right|")

/-- Model of `Error.substitute` (src/errorcalc.py lines 24-37): the
value-substituted rendering of every derivative, joined by " + ". -/
def substitute (inst : Error) (vals : Values) : Except PyErr String := do
  let ts ← mapME (subTerm inst vals) inst.vars
  pure (joinSep " + " ts)

end Error

/-- The unit-annotation loop of `Error.latex_out` (src/errorcalc.py lines
52-63): for every mapping entry with nonzero value, every textual occurrence
of the value inside the substituted string is rewritten to an `\SI{value}{unit}`
literal (an integral value prints without a decimal point). -/
def annotate (s : String) (vals : Values) : String :=
  vals.foldl
    (fun acc p =>
      if p.2.1 = 0 then acc
      else if p.2.1.den = 1 then
        pyReplace acc (pyNumRepr p.2.1)
          ("\\SI\x7b" ++ toString p.2.1.num ++ "\x7d\x7b" ++ p.2.2 ++ "\x7d")
      else
        pyReplace acc (pyNumRepr p.2.1)
          ("\\SI\x7b" ++ floatReprD p.2.1 ++ "\x7d\x7b" ++ p.2.2 ++ "\x7d"))
    s

namespace Error

/-- The first rendered line of the derivation block (src/errorcalc.py lines
41-50): the generic law, iterating the derivative dictionary. -/
def line1 (inst : Error) : String :=
  "    &= \\Delta " ++
    joinSep " + \\Delta "
      (inst.derivatives.map
        (fun p => p.1 ++ " \\cdot \\left|" ++ Expr.latexE p.2 ++ "\\right|")) ++
    "\\\\\n"

/-- Python `float(...)` on a sympy value (src/errorcalc.py line 72): a
number converts; an expression with free symbols raises `TypeError`. -/
def toFloat : Expr → Except PyErr ℚ
  | Expr.const q => .ok q
  | _ => .error .typeError

/-- Model of `Error.latex_out` (src/errorcalc.py lines 39-74): generic law,
substituted-and-annotated law, and the aggregate rendered through
`f"    &= \SI{{{float(result)}}}{{}}\n"` — a shortest-repr float rendering,
with no precision parameter. -/
def latex_out (inst : Error) (vals : Values) : Except PyErr String := do
  let sub ← substitute inst vals
  let sub2 := annotate sub vals
  let se ← sumExpr inst vals
  let q ← toFloat se
  pure ("\\begin\x7balign*\x7d\n" ++ line1 inst ++ "    &= " ++ sub2 ++ "\\\\\n" ++
    "    &= \\SI\x7b" ++ pyFloatRepr q ++ "\x7d\x7b\x7d\n" ++ "\\end\x7balign*\x7d\n\n")

/-- State-passing form of `Error.result`: the method reads `self` but never
assigns to it, so the instance after the call is the instance before it. -/
def resultS (inst : Error) (vals : Values) : Except PyErr Expr × Error :=
  (result inst vals, inst)

/-- State-passing form of `Error.latex_out`: the method reads `self` but
never assigns to it, so the instance after the call is the instance before
it. -/
def latex_outS (inst : Error) (vals : Values) : Except PyErr String × Error :=
  (latex_out inst vals, inst)

end Error

/-- Splitting a list that does not contain the separator yields a single
field. -/
theorem splitOnCh_no_sep (c : Char) :
    ∀ (l acc : List Char), c ∉ l → splitOnCh c l acc = [acc.reverse ++ l] := by
  intro l
  induction l with
  | nil => intro acc _; simp [splitOnCh]
  | cons d ds ih =>
    intro acc h
    have hd : ¬d = c := fun hh => h (by simp [hh])
    have hds : c ∉ ds := fun hh => h (by simp [hh])
    simp [splitOnCh, hd, ih (d :: acc) hds]

/-- For a variable name without underscores, the split-reconstruction in
`Error.result` does recover the name from its uncertainty name. -/
theorem pyDeltaKey_delta (x : String) (h : '_' ∉ x.data) :
    pyDeltaKey ("delta_" ++ x) = x := by
  obtain ⟨l⟩ := x
  have hdata : ("delta_" ++ String.mk l).data =
      'd' :: 'e' :: 'l' :: 't' :: 'a' :: '_' :: l := rfl
  simp only [pyDeltaKey, hdata, splitOnCh]
  norm_num
  rw [splitOnCh_no_sep _ l [] h]
  rfl

/-- The formula and point of the repository's own test
(src/test_error.py lines 3-4): `f(a, b) = a + a·b³`. -/
def f6 : PyFunc :=
  { args := ["a", "b"]
    varargs := none
    varkw := none
    defaults := 0
    kwonlyargs := []
    kwonlyNoDefault := false
    body := Expr.add (Expr.var "a")
      (Expr.mul (Expr.var "a") (Expr.pow (Expr.var "b") (Expr.const 3))) }

/-- The derivative sympy computes for `a`: `1 + b³`. -/
def derivA6 : Expr := Expr.add (Expr.const 1) (Expr.pow (Expr.var "b") (Expr.const 3))

/-- The derivative sympy computes for `b`: `a·(3·b²)`. -/
def derivB6 : Expr :=
  Expr.mul (Expr.var "a") (Expr.mul (Expr.const 3) (Expr.pow (Expr.var "b") (Expr.const 2)))

/-- The engine state `Error(my_function1)` builds for the test formula. -/
def inst6 : Error :=
  { vars := ["a", "b"]
    error_symbols := ["delta_a", "delta_b"]
    f := f6.body
    derivatives := [("a", derivA6), ("b", derivB6)] }

/-- The measurement mapping `values1` of src/test_error.py lines 6-11:
`a = 1 V`, `b = 2`, `Δa = 0.4 V`, `Δb = 0.5`. -/
def vals6 : Values :=
  [("a", (1, "\\volt")), ("b", (2, "")), ("delta_a", (2/5, "\\volt")), ("delta_b", (1/2, ""))]

/-- The same mapping with the value entry for `b` removed (its uncertainty
entry `delta_b` is still present). -/
def valsMissingB : Values :=
  [("a", (1, "\\volt")), ("delta_a", (2/5, "\\volt")), ("delta_b", (1/2, ""))]

/-- A trivial interpretation of the transcendentals, for instantiating
interpretation-quantified statements. -/
def interp0 : Interp :=
  { sinI := fun _ => 0
    cosI := fun _ => 0
    sqrtI := fun _ => 0
    logI := fun _ => 0
    rpowI := fun _ _ => 0 }

/-- A trivial environment, for instantiating environment-quantified
statements. -/
def env0 : String → ℚ := fun _ => 0

/-- Claim C1, counterexample.  With the test formula and a mapping whose
`delta_` entries are complete but whose value entry for `b` is absent,
`Error.result` does not raise: it returns a symbolic expression (in which
`b` is still a free symbol, so nothing was defaulted), and `Error.latex_out`
fails only later, with a `TypeError` from `float(...)` that does not name
the absent variable.  This falsifies "evaluation raises MissingMeasurement
naming the absent variable and never returns a value". -/
theorem claim_C1_counterexample :
    Error.result inst6 valsMissingB =
      .ok (Expr.add
        (Expr.mul (Expr.const (2/5))
          (Expr.eabs (Expr.add (Expr.const 1) (Expr.pow (Expr.var "b") (Expr.const 3)))))
        (Expr.mul (Expr.const (1/2))
          (Expr.eabs (Expr.mul (Expr.const 3) (Expr.pow (Expr.var "b") (Expr.const 2)))))) ∧
    Error.latex_out inst6 valsMissingB = .error PyErr.typeError :=
  ⟨by with_unfolding_all rfl, by with_unfolding_all rfl⟩

/-- A single-parameter formula whose parameter name contains an underscore:
`f(x_1) = x_1`. -/
def fU : PyFunc :=
  { args := ["x_1"]
    varargs := none
    varkw := none
    defaults := 0
    kwonlyargs := []
    kwonlyNoDefault := false
    body := Expr.var "x_1" }

/-- The engine state `Error.__init__` builds for `fU`. -/
def instU : Error :=
  { vars := ["x_1"]
    error_symbols := ["delta_x_1"]
    f := Expr.var "x_1"
    derivatives := [("x_1", Expr.const 1)] }

/-- A complete measurement mapping for `fU`: `x_1 = 1`, `delta_x_1 = 0.5`. -/
def valsU : Values :=
  [("x_1", (1, "")), ("delta_x_1", (1/2, ""))]

/-- Claim C2, failing input.  For the formula `f(x_1) = x_1` and the
complete mapping `{x_1: 1, delta_x_1: 0.5}`, the claim's algorithm gives
`0.5·|1| = 0.5` and promises that `Error.result` never fails; the code
instead raises `KeyError('x')`, because `"delta_x_1".split("_")[1]` yields
`"x"`, which is not a key of the derivative dictionary. -/
theorem claim_C2_bug_eval :
    Error.init fU = .ok instU ∧
    Error.result instU valsU = .error (PyErr.keyError "x") :=
  ⟨by with_unfolding_all rfl, by with_unfolding_all rfl⟩

/-- A formula with a variadic parameter and a default-valued parameter:
`f(a, b=2, *rest) = a + b`. -/
def fD : PyFunc :=
  { args := ["a", "b"]
    varargs := some "rest"
    varkw := none
    defaults := 1
    kwonlyargs := []
    kwonlyNoDefault := false
    body := Expr.add (Expr.var "a") (Expr.var "b") }

/-- The engine state `Error.__init__` builds for `fD`. -/
def instD : Error :=
  { vars := ["a", "b"]
    error_symbols := ["delta_a", "delta_b"]
    f := fD.body
    derivatives := [("a", Expr.const 1), ("b", Expr.const 1)] }

/-- Claim C5, counterexample.  `fD` has a variadic parameter and a
default-valued parameter, so the claim requires construction to fail with
`SignatureError`; instead `inspect.getfullargspec(func).args` silently
yields the positional names and construction succeeds. -/
theorem claim_C5_counterexample : Error.init fD = .ok instD := by
  with_unfolding_all rfl

/-- Claim C6.  For the repository's test formula `f(a, b) = a + a·b³`, the
cached derivatives are `1 + b³` for `a` and `3·a·b²` for `b` (stated as
evaluation under every interpretation and environment), and at
`a = 1, b = 2, Δa = 0.4, Δb = 0.5` the result is exactly `9.6`. -/
theorem claim_C6_concrete :
    Error.init f6 = .ok inst6 ∧
    dget inst6.derivatives "a" = some derivA6 ∧
    dget inst6.derivatives "b" = some derivB6 ∧
    (∀ (I : Interp) (ρ : String → ℚ),
      Expr.evalT I derivA6 ρ = 1 + ρ "b" ^ 3) ∧
    (∀ (I : Interp) (ρ : String → ℚ),
      Expr.evalT I derivB6 ρ = 3 * ρ "a" * ρ "b" ^ 2) ∧
    Error.result inst6 vals6 = .ok (Expr.const (9.6 : ℚ)) := by
  refine ⟨by with_unfolding_all rfl, rfl, rfl, ?_, ?_, by with_unfolding_all rfl⟩
  · intro I ρ
    simp [derivA6, Expr.evalT]
    norm_num [zpow_ofNat]
  · intro I ρ
    simp [derivB6, Expr.evalT]
    norm_num [zpow_ofNat]
    ring

/-- The formula `f(a, a_c) = a²`, whose second parameter is absent from the
body and whose name collides under the split-reconstruction with the first
parameter. -/
def f7 : PyFunc :=
  { args := ["a", "a_c"]
    varargs := none
    varkw := none
    defaults := 0
    kwonlyargs := []
    kwonlyNoDefault := false
    body := Expr.pow (Expr.var "a") (Expr.const 2) }

/-- The engine state `Error.__init__` builds for `f7`: the derivative cached
for the absent parameter `a_c` is the constant `0`. -/
def inst7 : Error :=
  { vars := ["a", "a_c"]
    error_symbols := ["delta_a", "delta_a_c"]
    f := f7.body
    derivatives := [("a", Expr.mul (Expr.const 2) (Expr.var "a")), ("a_c", Expr.const 0)] }

/-- A complete mapping for `f7` with `delta_a_c = 1`. -/
def vals7a : Values :=
  [("a", (2, "")), ("a_c", (5, "")), ("delta_a", (0, "")), ("delta_a_c", (1, ""))]

/-- The same mapping with `delta_a_c = 0`. -/
def vals7b : Values :=
  [("a", (2, "")), ("a_c", (5, "")), ("delta_a", (0, "")), ("delta_a_c", (0, ""))]

/-- Claim C7, failing input.  For `f(a, a_c) = a²` the cached derivative of
the absent parameter `a_c` is `0` — yet its supplied uncertainty is not
multiplied by that derivative: `"delta_a_c".split("_")[1]` is `"a"`, so the
term uses `∂f/∂a` instead, and raising `delta_a_c` from `0` to `1` moves the
total from `0` to `1·|2·2| = 4`.  The claim requires the contribution to be
`0` whatever uncertainty is supplied. -/
theorem claim_C7_bug_eval :
    Error.init f7 = .ok inst7 ∧
    dget inst7.derivatives "a_c" = some (Expr.const 0) ∧
    Error.result inst7 vals7a = .ok (Expr.const 4) ∧
    Error.result inst7 vals7b = .ok (Expr.const 0) :=
  ⟨by with_unfolding_all rfl, rfl, by with_unfolding_all rfl, by with_unfolding_all rfl⟩

/-- Claim C8.  In state-passing form, `Error.result` and `Error.latex_out`
return the instance unchanged (the Python methods never assign to `self`),
so a second call on the returned state with the same mapping produces the
identical numeric value and the identical rendered text. -/
theorem claim_C8_idempotent (inst : Error) (vals : Values) :
    (Error.resultS ((Error.resultS inst vals).2) vals).1 = (Error.resultS inst vals).1 ∧
    (Error.latex_outS ((Error.latex_outS inst vals).2) vals).1 =
      (Error.latex_outS inst vals).1 :=
  ⟨rfl, rfl⟩

/-- Claim C9, counterexample.  On the repository's own test input the third
content line of the derivation block renders the aggregate as `9.6` — the
shortest float representation — not with a fixed six-digit precision
(`9.600000`), and `Error.latex_out` takes no precision parameter at all. -/
theorem claim_C9_counterexample :
    (Error.latex_out inst6 vals6).map (fun s => (linesOf s).getD 3 "") =
      .ok "    &= \\SI\x7b9.6\x7d\x7b\x7d" ∧
    ("    &= \\SI\x7b9.6\x7d\x7b\x7d" : String) ≠
      "    &= \\SI\x7b" ++ fixedRepr 6 (9.6 : ℚ) ++ "\x7d\x7b\x7d" :=
  ⟨by with_unfolding_all rfl, by with_unfolding_all decide⟩

theorem init_ok_elim {func : PyFunc} {inst : Error} (h : Error.init func = .ok inst) :
    inst.vars = func.args ∧
    inst.error_symbols = func.args.map (fun v => "delta_" ++ v) ∧
    inst.f = func.body ∧
    inst.derivatives = mkDerivs func.args func.body := by
  by_cases hk : func.kwonlyNoDefault <;> simp [Error.init, getfullargspec, hk] at h
  subst h
  exact ⟨rfl, rfl, rfl, rfl⟩

theorem except_bind_ok {ε α β : Type} (a : α) (f : α → Except ε β) :
    (Except.ok a >>= f : Except ε β) = f a := rfl

theorem except_bind_error {ε α β : Type} (e : ε) (f : α → Except ε β) :
    (Except.error e >>= f : Except ε β) = Except.error e := rfl

theorem mapME_term1_error (inst : Error) (vals : Values) :
    ∀ (l : List String) (x₀ : String),
      (∀ y ∈ l, (dget vals ("delta_" ++ y)).isSome = true →
        (dget inst.derivatives (pyDeltaKey ("delta_" ++ y))).isSome = true) →
      l.find? (fun x => (dget vals ("delta_" ++ x)).isNone) = some x₀ →
      mapME (Error.term1 inst vals) (l.map (fun v => "delta_" ++ v)) =
        .error (.keyError ("delta_" ++ x₀)) := by
  intro l
  induction l with
  | nil => intro x₀ _ hfind; simp at hfind
  | cons a as ih =>
    intro x₀ hder hfind
    by_cases ha : (dget vals ("delta_" ++ a)).isNone
    · rw [List.find?_cons_of_pos _ (by simpa using ha)] at hfind
      have hnone : dget vals ("delta_" ++ a) = none := by
        simpa [Option.isNone_iff_eq_none] using ha
      obtain rfl : a = x₀ := by simpa using hfind
      simp [mapME_cons, Error.term1, hnone, except_bind_error]
    · rw [List.find?_cons_of_neg _ (by simpa using ha)] at hfind
      have hsome : (dget vals ("delta_" ++ a)).isSome = true := by
        simpa [Option.isSome_iff_ne_none, Option.isNone_iff_eq_none] using ha
      obtain ⟨dv, hdv⟩ := Option.isSome_iff_exists.mp hsome
      obtain ⟨der, hd⟩ := Option.isSome_iff_exists.mp (hder a (by simp) hsome)
      have hrest := ih x₀ (fun y hy hs => hder y (by simp [hy]) hs) hfind
      simp [List.map_cons, mapME_cons, Error.term1, hdv, hd, hrest,
        except_bind_ok, except_bind_error]

theorem mapME_term1_ok (inst : Error) (vals : Values) :
    ∀ l : List String,
      (∀ y ∈ l, (dget vals ("delta_" ++ y)).isSome = true) →
      (∀ y ∈ l, (dget inst.derivatives (pyDeltaKey ("delta_" ++ y))).isSome = true) →
      ∃ ts, mapME (Error.term1 inst vals) (l.map (fun v => "delta_" ++ v)) = .ok ts := by
  intro l
  induction l with
  | nil => intro _ _; exact ⟨[], rfl⟩
  | cons a as ih =>
    intro hdel hder
    obtain ⟨dv, hdv⟩ := Option.isSome_iff_exists.mp (hdel a (by simp))
    obtain ⟨der, hd⟩ := Option.isSome_iff_exists.mp (hder a (by simp))
    obtain ⟨ts, hts⟩ := ih (fun y hy => hdel y (by simp [hy])) (fun y hy => hder y (by simp [hy]))
    refine ⟨Expr.smul (Expr.const dv.1) (Expr.sabs (Expr.subsEval der (numEnv vals))) :: ts, ?_⟩
    simp [List.map_cons, mapME_cons, Error.term1, hdv, hd, hts, except_bind_ok]

theorem mapME_subTerm_error (inst : Error) (vals : Values) :
    ∀ (l : List String) (x₀ : String),
      (∀ y ∈ l, (dget inst.derivatives y).isSome = true) →
      l.find? (fun x => (dget vals ("delta_" ++ x)).isNone) = some x₀ →
      mapME (Error.subTerm inst vals) l = .error (.keyError ("delta_" ++ x₀)) := by
  intro l
  induction l with
  | nil => intro x₀ _ hfind; simp at hfind
  | cons a as ih =>
    intro x₀ hder hfind
    obtain ⟨der, hd⟩ := Option.isSome_iff_exists.mp (hder a (by simp))
    by_cases ha : (dget vals ("delta_" ++ a)).isNone
    · rw [List.find?_cons_of_pos _ (by simpa using ha)] at hfind
      have hnone : dget vals ("delta_" ++ a) = none := by
        simpa [Option.isNone_iff_eq_none] using ha
      obtain rfl : a = x₀ := by simpa using hfind
      simp [mapME_cons, Error.subTerm, hd, hnone, except_bind_error]
    · rw [List.find?_cons_of_neg _ (by simpa using ha)] at hfind
      have hsome : (dget vals ("delta_" ++ a)).isSome = true := by
        simpa [Option.isSome_iff_ne_none, Option.isNone_iff_eq_none] using ha
      obtain ⟨dv, hdv⟩ := Option.isSome_iff_exists.mp hsome
      have hrest := ih x₀ (fun y hy => hder y (by simp [hy])) hfind
      simp [mapME_cons, Error.subTerm, hd, hdv, hrest, except_bind_ok, except_bind_error]

/-- Claim C1, amended.  If any `delta_`-prefixed uncertainty entry is
absent (and the declared names contain no underscore), both `Error.result`
and `Error.latex_out` fail with a `KeyError` naming the first absent
uncertainty entry in declaration order; if every uncertainty entry is
present, `Error.result` returns a value even when a variable's value entry
is absent — a symbolic expression rather than a `MissingMeasurement`-style
failure naming the variable (see the counterexample), and nothing is
defaulted. -/
theorem claim_C1_amended (func : PyFunc) (inst : Error)
    (hinit : Error.init func = .ok inst)
    (hnu : ∀ x ∈ func.args, '_' ∉ x.data)
    (vals : Values) :
    (∀ x₀, func.args.find? (fun x => (dget vals ("delta_" ++ x)).isNone) = some x₀ →
      Error.result inst vals = .error (.keyError ("delta_" ++ x₀)) ∧
      Error.latex_out inst vals = .error (.keyError ("delta_" ++ x₀))) ∧
    (func.args.find? (fun x => (dget vals ("delta_" ++ x)).isNone) = none →
      ∃ e, Error.result inst vals = .ok e) := by
  obtain ⟨hv, he, hf, hd⟩ := init_ok_elim hinit
  have hderAll : ∀ y ∈ func.args,
      (dget inst.derivatives (pyDeltaKey ("delta_" ++ y))).isSome = true := by
    intro y hy
    rw [pyDeltaKey_delta y (hnu y hy), hd, mkDerivs_dget]
    simp [hy]
  constructor
  · intro x₀ hfind
    constructor
    · have hmap := mapME_term1_error inst vals func.args x₀
        (fun y hy _ => hderAll y hy) hfind
      simp [Error.result, Error.sumExpr, he, hmap, except_bind_error]
    · have hderAll2 : ∀ y ∈ func.args, (dget inst.derivatives y).isSome = true := by
        intro y hy
        rw [hd, mkDerivs_dget]
        simp [hy]
      have hmap := mapME_subTerm_error inst vals func.args x₀ hderAll2 hfind
      have hsub : Error.substitute inst vals = .error (.keyError ("delta_" ++ x₀)) := by
        simp [Error.substitute, hv, hmap, except_bind_error]
      simp [Error.latex_out, hsub, except_bind_error]
  · intro hfind
    have hdelAll : ∀ y ∈ func.args, (dget vals ("delta_" ++ y)).isSome = true := by
      intro y hy
      have := List.find?_eq_none.mp hfind y hy
      simpa [Option.isSome_iff_ne_none, Option.isNone_iff_eq_none] using this
    obtain ⟨ts, hts⟩ := mapME_term1_ok inst vals func.args hdelAll hderAll
    exact ⟨ts.foldl Expr.sadd (Expr.const 0),
      by simp [Error.result, Error.sumExpr, he, hts, except_bind_ok]⟩

/-- The test mapping with the uncertainty entry `delta_b` removed. -/
def valsNoDeltaB : Values :=
  [("a", (1, "\\volt")), ("b", (2, "")), ("delta_a", (2/5, "\\volt"))]

/-- Witness for the amended claim C1 at a concrete input: with `delta_b`
absent, both evaluation entry points fail with `KeyError('delta_b')`. -/
theorem claim_C1_witness :
    Error.result inst6 valsNoDeltaB = .error (PyErr.keyError "delta_b") ∧
    Error.latex_out inst6 valsNoDeltaB = .error (PyErr.keyError "delta_b") :=
  (claim_C1_amended f6 inst6 (by with_unfolding_all rfl) (by decide) valsNoDeltaB).1
    "b" (by with_unfolding_all rfl)

/-- The expression fragment named by claim C3: variables, numeric literals,
sum/difference, product, quotient, power, `sin`, `cos` and `sqrt`. -/
def inFragment : Expr → Bool
  | Expr.const _ => true
  | Expr.var _ => true
  | Expr.add a b => inFragment a && inFragment b
  | Expr.sub a b => inFragment a && inFragment b
  | Expr.mul a b => inFragment a && inFragment b
  | Expr.div a b => inFragment a && inFragment b
  | Expr.pow a b => inFragment a && inFragment b
  | Expr.sin u => inFragment u
  | Expr.cos u => inFragment u
  | Expr.sqrt u => inFragment u
  | Expr.log _ => false
  | Expr.eabs _ => false

/-- Claim C3.  For a formula in the stated fragment, the Derivative Map
entry for each declared variable is the sympy derivative of the body, and
that derivative agrees — under every interpretation of the transcendentals
and every environment — with the specification's structural derivative
built from the standard rules (unrelated subtree to `0`, sum rule, product
rule, quotient rule, power rule, chain rules). -/
theorem claim_C3_derivative_rules (func : PyFunc) (inst : Error)
    (hinit : Error.init func = .ok inst) (x : String) (hx : x ∈ func.args)
    (_hfrag : inFragment func.body = true) :
    dget inst.derivatives x = some (Expr.diff func.body x) ∧
    ∀ (I : Interp) (ρ : String → ℚ),
      Expr.evalT I (Expr.diff func.body x) ρ =
        Expr.evalT I (Expr.diffSpec func.body x) ρ := by
  obtain ⟨hv, he, hf, hd⟩ := init_ok_elim hinit
  refine ⟨?_, fun I ρ => Expr.evalT_diff_eq_diffSpec I x ρ func.body⟩
  rw [hd, mkDerivs_dget]
  simp [hx]

/-- Witness for claim C3 at the test formula, variable `a`, and a concrete
interpretation and environment. -/
theorem claim_C3_witness :
    dget inst6.derivatives "a" = some (Expr.diff f6.body "a") ∧
    Expr.evalT interp0 (Expr.diff f6.body "a") env0 =
      Expr.evalT interp0 (Expr.diffSpec f6.body "a") env0 := by
  have h := claim_C3_derivative_rules f6 inst6 (by with_unfolding_all rfl) "a"
    (by decide) (by decide)
  exact ⟨h.1, h.2 interp0 env0⟩

/-- Claim C4.  With distinct declared names, the Derivative Map's key list
is exactly the resolver's ordered variable list (no duplicates, nothing
extra or missing), every entry is the derivative computed at construction,
and the evaluation and rendering calls leave the instance — hence the map —
unchanged. -/
theorem claim_C4_derivative_map_keys (func : PyFunc) (inst : Error)
    (hinit : Error.init func = .ok inst) (hnd : func.args.Nodup) :
    inst.derivatives.map Prod.fst = (getfullargspec func).args ∧
    (inst.derivatives.map Prod.fst).Nodup ∧
    (∀ x ∈ func.args, dget inst.derivatives x = some (Expr.diff func.body x)) ∧
    (∀ vals : Values,
      (Error.resultS inst vals).2 = inst ∧ (Error.latex_outS inst vals).2 = inst) := by
  obtain ⟨hv, he, hf, hd⟩ := init_ok_elim hinit
  have hkeys : inst.derivatives.map Prod.fst = func.args := by
    rw [hd]
    exact mkDerivs_keys _ _ hnd
  refine ⟨hkeys, hkeys ▸ hnd, ?_, fun vals => ⟨rfl, rfl⟩⟩
  intro x hx
  rw [hd, mkDerivs_dget]
  simp [hx]

/-- Witness for claim C4 at the test formula. -/
theorem claim_C4_witness :
    inst6.derivatives.map Prod.fst = (getfullargspec f6).args ∧
    (Error.resultS inst6 vals6).2 = inst6 := by
  have h := claim_C4_derivative_map_keys f6 inst6 (by with_unfolding_all rfl) (by decide)
  exact ⟨h.1, (h.2.2.2 vals6).1⟩

/-- Claim C5, amended.  Signature resolution never raises a
`SignatureError`: for every callable whose keyword-only parameters all have
defaults — including variadic and default-valued ones — construction
succeeds and uses the ordered positional parameter names reported by
`inspect.getfullargspec`; the only construction-time failure is a
`TypeError` from invoking a formula that has a keyword-only parameter
without a default. -/
theorem claim_C5_amended (func : PyFunc) (h : func.kwonlyNoDefault = false) :
    Error.init func =
      .ok
        { vars := (getfullargspec func).args
          error_symbols := (getfullargspec func).args.map (fun v => "delta_" ++ v)
          f := func.body
          derivatives := mkDerivs (getfullargspec func).args func.body } := by
  simp [Error.init, h]

/-- Witness for the amended claim C5 at the variadic, default-valued
formula `fD`. -/
theorem claim_C5_witness :
    Error.init fD =
      .ok
        { vars := (getfullargspec fD).args
          error_symbols := (getfullargspec fD).args.map (fun v => "delta_" ++ v)
          f := fD.body
          derivatives := mkDerivs (getfullargspec fD).args fD.body } :=
  claim_C5_amended fD (by decide)

/-- Claim C9, amended.  Whenever substitution succeeds and the aggregate
folds to a number `q`, the derivation block's third content line renders
`q` through Python's `float` conversion — the shortest decimal
representation, with no fixed and no caller-chosen precision (the
`SymbolicDerivatives` variant in src/Errorcalculator.py line 68 hardcodes
six digits instead; neither lets the caller choose). -/
theorem claim_C9_amended (inst : Error) (vals : Values) (s : String) (q : ℚ)
    (hsub : Error.substitute inst vals = .ok s)
    (hsum : Error.sumExpr inst vals = .ok (Expr.const q)) :
    Error.latex_out inst vals =
      .ok ("\\begin\x7balign*\x7d\n" ++ Error.line1 inst ++ "    &= " ++
        annotate s vals ++ "\\\\\n" ++ "    &= \\SI\x7b" ++ pyFloatRepr q ++
        "\x7d\x7b\x7d\n" ++ "\\end\x7balign*\x7d\n\n") := by
  simp [Error.latex_out, hsub, hsum, Error.toFloat, except_bind_ok]

/-- The substituted string `Error.substitute` produces on the test input. -/
def subStr6 : String := (Error.substitute inst6 vals6).toOption.getD ""

/-- Witness for the amended claim C9 at the test input (where the aggregate
is `9.6` and the third line renders `\SI{9.6}{}`). -/
theorem claim_C9_witness :
    Error.latex_out inst6 vals6 =
      .ok ("\\begin\x7balign*\x7d\n" ++ Error.line1 inst6 ++ "    &= " ++
        annotate subStr6 vals6 ++ "\\\\\n" ++ "    &= \\SI\x7b" ++
        pyFloatRepr (9.6 : ℚ) ++ "\x7d\x7b\x7d\n" ++ "\\end\x7balign*\x7d\n\n") :=
  claim_C9_amended inst6 vals6 subStr6 (9.6 : ℚ) (by with_unfolding_all rfl)
    (by with_unfolding_all rfl)

/-- Claim C10.  For a formula whose body only mentions its declared
parameters, two measurement mappings that agree on every declared variable
entry and on every corresponding `delta_` entry produce equal results:
entries under any other key are ignored by `Error.result`. -/
theorem claim_C10_irrelevant_keys (func : PyFunc) (inst : Error)
    (hinit : Error.init func = .ok inst)
    (hclosed : ∀ y, Expr.occurs y func.body = true → y ∈ func.args)
    (v₁ v₂ : Values)
    (hvar : ∀ x ∈ func.args, dget v₁ x = dget v₂ x)
    (hdelta : ∀ x ∈ func.args, dget v₁ ("delta_" ++ x) = dget v₂ ("delta_" ++ x)) :
    Error.result inst v₁ = Error.result inst v₂ := by
  obtain ⟨hv, he, hf, hd⟩ := init_ok_elim hinit
  have hterm : ∀ dn ∈ inst.error_symbols,
      Error.term1 inst v₁ dn = Error.term1 inst v₂ dn := by
    intro dn hdn
    rw [he] at hdn
    obtain ⟨y, hy, rfl⟩ := List.mem_map.mp hdn
    have hδ := hdelta y hy
    simp only [Error.term1, hδ]
    cases hval : dget v₂ ("delta_" ++ y) with
    | none => rfl
    | some dv =>
      cases hder : dget inst.derivatives (pyDeltaKey ("delta_" ++ y)) with
      | none => rfl
      | some der =>
        have hdform : ∃ z, z ∈ func.args ∧ der = Expr.diff func.body z := by
          rw [hd, mkDerivs_dget] at hder
          by_cases hz : pyDeltaKey ("delta_" ++ y) ∈ func.args
          · simp [hz] at hder
            exact ⟨_, hz, hder.symm⟩
          · simp [hz] at hder
        obtain ⟨z, hz, rfl⟩ := hdform
        have hsub : Expr.subsEval (Expr.diff func.body z) (numEnv v₁) =
            Expr.subsEval (Expr.diff func.body z) (numEnv v₂) := by
          apply Expr.subsEval_congr
          intro w hw
          have hwb : Expr.occurs w func.body = true := Expr.occurs_diff func.body hw
          simp [numEnv, hvar w (hclosed w hwb)]
        simp [hsub]
  show Error.sumExpr inst v₁ = Error.sumExpr inst v₂
  simp only [Error.sumExpr]
  rw [mapME_congr _ _ inst.error_symbols hterm]

/-- The test mapping with two extra, undeclared entries appended. -/
def valsExtra : Values :=
  vals6 ++ [("c", (7, "")), ("junk", (3, "\\meter"))]

/-- Witness for claim C10: the extra entries of `valsExtra` do not change
the result on the test formula. -/
theorem claim_C10_witness :
    Error.result inst6 valsExtra = Error.result inst6 vals6 :=
  claim_C10_irrelevant_keys f6 inst6 (by with_unfolding_all rfl)
    (by
      intro y hy
      simp [f6, Expr.occurs] at hy
      rcases hy with h | h <;> simp [f6, h])
    valsExtra vals6
    (by intro x hx; fin_cases hx <;> with_unfolding_all rfl)
    (by intro x hx; fin_cases hx <;> with_unfolding_all rfl)

/-- Folding sympy's auto-evaluating addition over a list of numbers from a
numeric start value folds completely to a number (the model of Python
`sum([...])` on fully numeric terms). -/
theorem foldl_sadd_consts :
    ∀ (qs : List ℚ) (c : ℚ),
      (qs.map Expr.const).foldl Expr.sadd (Expr.const c) =
        Expr.const (qs.foldl (fun acc q => acc + q) c) := by
  intro qs
  induction qs with
  | nil => intro c; rfl
  | cons q qs ih => intro c; simp [Expr.sadd, ih]

/-- When every uncertainty entry is present, no name contains an underscore
and every substituted derivative closes to a number, each term of the
aggregation loop is exactly `uncertainty · |derivative at the point|`. -/
theorem mapME_term1_values (inst : Error) (vals : Values) (body : Expr)
    (δ d : String → ℚ) :
    ∀ l : List String,
      (∀ x ∈ l, '_' ∉ x.data) →
      (∀ x ∈ l, (dget vals ("delta_" ++ x)).map Prod.fst = some (δ x)) →
      (∀ x ∈ l, dget inst.derivatives x = some (Expr.diff body x)) →
      (∀ x ∈ l, Expr.subsEval (Expr.diff body x) (numEnv vals) = Expr.const (d x)) →
      mapME (Error.term1 inst vals) (l.map (fun v => "delta_" ++ v)) =
        .ok (l.map fun x => Expr.const (δ x * |d x|)) := by
  intro l
  induction l with
  | nil => intro _ _ _ _; rfl
  | cons a as ih =>
    intro hnu hδ hder hev
    obtain ⟨dv, hdv, hdv1⟩ : ∃ dv, dget vals ("delta_" ++ a) = some dv ∧ dv.1 = δ a := by
      have := hδ a (by simp)
      cases h : dget vals ("delta_" ++ a) with
      | none => rw [h] at this; simp at this
      | some dv => rw [h] at this; exact ⟨dv, rfl, by simpa using this⟩
    have hkey : pyDeltaKey ("delta_" ++ a) = a := pyDeltaKey_delta a (hnu a (by simp))
    have hrest := ih (fun y hy => hnu y (by simp [hy])) (fun y hy => hδ y (by simp [hy]))
      (fun y hy => hder y (by simp [hy])) (fun y hy => hev y (by simp [hy]))
    simp only [List.map_cons, mapME_cons, Error.term1, hdv, hkey, hder a (by simp),
      hev a (by simp), hrest, except_bind_ok]
    simp [Expr.sabs, Expr.smul, hdv1, except_bind_ok]
    rfl

/-- The specification's §4.4 aggregation law, established generally: when
every uncertainty entry is present, no declared name contains an underscore
(see `claim_C2_bug_eval` for what happens otherwise), and each cached
derivative closes to the number `d x` at the measurement point, the result
is exactly the number `Σ δ x · |d x|`, summed in declaration order. -/
theorem result_linear_law (func : PyFunc) (inst : Error)
    (hinit : Error.init func = .ok inst)
    (hnu : ∀ x ∈ func.args, '_' ∉ x.data)
    (vals : Values) (δ d : String → ℚ)
    (hδ : ∀ x ∈ func.args, (dget vals ("delta_" ++ x)).map Prod.fst = some (δ x))
    (hev : ∀ x ∈ func.args,
      Expr.subsEval (Expr.diff func.body x) (numEnv vals) = Expr.const (d x)) :
    Error.result inst vals =
      .ok (Expr.const (func.args.foldl (fun acc x => acc + δ x * |d x|) 0)) := by
  obtain ⟨hv, he, hf, hdd⟩ := init_ok_elim hinit
  have hder : ∀ x ∈ func.args, dget inst.derivatives x = some (Expr.diff func.body x) := by
    intro x hx
    rw [hdd, mkDerivs_dget]
    simp [hx]
  have hmap := mapME_term1_values inst vals func.body δ d func.args hnu hδ hder hev
  simp only [Error.result, Error.sumExpr, he, hmap, except_bind_ok]
  rw [show (func.args.map fun x => Expr.const (δ x * |d x|)) =
        ((func.args.map fun x => δ x * |d x|).map Expr.const) from by simp,
    foldl_sadd_consts]
  simp only [List.foldl_map]
  rfl
